import Mathlib

/-!
# Verification development for the `bijection!` clause compiler (src/src/lib.rs)

The repository is a single Rust declarative `macro_rules! bijection` definition.  Its
arms, in source order, are:

* final-construction rule (lib.rs 128-151): on state `(@ (ty1, ty2) {done1} {done2} () ())`
  emit the two `From` impls, each a `match` over the accumulated arms;
* entry rule (lib.rs 153-165): `ty1, ty2, { bij }` starts normalization with the clause
  stream doubled;
* munch rule (lib.rs 167-189): consumes `pat_param => expr ,` from the first view and
  `expr => pat_param ,` from the second view in lock step, appending one arm to each
  accumulator;
* terminal munch rule (lib.rs 191-212): same without the trailing comma, recursing to
  `() ()` (here fused with the final rule, which is what that recursion immediately hits);
* invalid-pattern rule (lib.rs 221-243): catch-all over the remaining doubled views,
  re-emitting the first remaining view inside a native `match` and then a
  `compile_error!("Invalid bijection pattern:\n" <stringified rest>)`;
* the malformed-invocation rules (lib.rs 254-331) in source order.

Modeling choices, kept uniform below:

* A Rust token tree is `Tt`.  A clause side (a pattern/expression fragment) is treated as
  one opaque unit `Tt.shape`, following the crate boundary: the macro never looks inside
  a shape, it only splits the stream at `=>` and `,` and hands each side to the host
  fragment parsers.  A top-level alternation `a | b` is the shape `RawShape.alt a b`:
  Rust's `pat_param` fragment refuses it (it stops before a top-level `|`, so the munch
  arm fails to match), while the `expr` fragment accepts it as the bitwise-or operator.
* Fragment specifiers: `:ty` is `matchTy` (a path name plus at most one level of
  angle-bracket generic arguments, the type forms this crate exercises, e.g.
  `Option<bool>`); `:tt` is a single `Tt`; `:block` is a brace group; `:pat_param` is
  `asPatParam`; `:expr` is `asExpr`.
* `macro_rules` tries arms top-to-bottom and an arm matches only if every matcher in it
  matches; `bijectionExpand` chains the arms in exactly the source order.
* The generated code is two `match` dispatches; their host semantics is `runMatch`
  (ordered, first arm whose pattern matches wins) over a small value universe
  (unit/tuple/struct constructors, integers, booleans) — the universe used by the
  crate's doctests and unit tests.  A single-segment path in pattern position is a
  binding unless the host resolves it as a unit constructor (`unitCtors` models the
  resolution environment; the crate's tests only need `None`).  Rust field-shorthand
  `Foo { x }` is the explicit field `x : x`.
-/

/-- A clause side: an opaque shape fragment.  `path` covers `Foo`, `Foo::A` and plain
identifiers, `call` covers tuple-constructor application `Foo(...)`, `record` covers
struct syntax `Foo { f : s, ... }`, and `alt` is an alternation `a | b` at the level at
which it occurs. -/
inductive RawShape where
  | path (segs : List String)
  | litInt (n : Int)
  | litBool (b : Bool)
  | call (segs : List String) (args : List RawShape)
  | record (segs : List String) (fields : List (String × RawShape))
  | alt (a b : RawShape)

/-- Host patterns, the reading of a shape in pattern position. -/
inductive Pat where
  | bind (x : String)
  | litInt (n : Int)
  | litBool (b : Bool)
  | ctor (name : String) (args : List Pat)
  | record (name : String) (fields : List (String × Pat))
  | orPat (p q : Pat)

/-- Host expressions, the reading of a shape in expression position.  An alternation
read as an expression is the bitwise-or operator `bitOr`. -/
inductive Expr where
  | var (x : String)
  | litInt (n : Int)
  | litBool (b : Bool)
  | ctor (name : String) (args : List Expr)
  | record (name : String) (fields : List (String × Expr))
  | bitOr (a b : Expr)

/-- Host runtime values for the generated conversion functions. -/
inductive Value where
  | int (n : Int)
  | bool (b : Bool)
  | ctor (name : String) (args : List Value)
  | record (name : String) (fields : List (String × Value))

/-- Single-segment paths that the host name resolution reads as unit constructors
rather than fresh bindings (the crate's tests only need the prelude's `None`). -/
def unitCtors : List String := ["None"]

/-- Semantic name of a path: its segments joined by the path separator. -/
def pathName (segs : List String) : String := String.intercalate "::" segs

mutual

/-- Reading of a shape in pattern position (any nesting level, alternation allowed,
as in the argument position of a Rust pattern). -/
def asPat : RawShape → Pat
  | .path [s] => if unitCtors.contains s then .ctor s [] else .bind s
  | .path segs => .ctor (pathName segs) []
  | .litInt n => .litInt n
  | .litBool b => .litBool b
  | .call segs args => .ctor (pathName segs) (asPatList args)
  | .record segs fields => .record (pathName segs) (asPatFields fields)
  | .alt a b => .orPat (asPat a) (asPat b)

def asPatList : List RawShape → List Pat
  | [] => []
  | s :: rest => asPat s :: asPatList rest

def asPatFields : List (String × RawShape) → List (String × Pat)
  | [] => []
  | (f, s) :: rest => (f, asPat s) :: asPatFields rest

end

/-- Rust's `pat_param` fragment: a pattern without a top-level alternation.  On a
top-level `|` the fragment fails, which makes the whole macro arm fail. -/
def asPatParam : RawShape → Option Pat
  | .alt _ _ => none
  | s => some (asPat s)

mutual

/-- Reading of a shape in expression position.  Total: every shape is syntactically a
valid expression; in particular an alternation becomes the bitwise-or operator, the
reinterpretation the crate's doc comment (lib.rs 118-125) warns about. -/
def asExpr : RawShape → Expr
  | .path [s] => if unitCtors.contains s then .ctor s [] else .var s
  | .path segs => .ctor (pathName segs) []
  | .litInt n => .litInt n
  | .litBool b => .litBool b
  | .call segs args => .ctor (pathName segs) (asExprList args)
  | .record segs fields => .record (pathName segs) (asExprFields fields)
  | .alt a b => .bitOr (asExpr a) (asExpr b)

def asExprList : List RawShape → List Expr
  | [] => []
  | s :: rest => asExpr s :: asExprList rest

def asExprFields : List (String × RawShape) → List (String × Expr)
  | [] => []
  | (f, s) :: rest => (f, asExpr s) :: asExprFields rest

end

/-- A Rust token tree at the invocation's top level: identifiers, the punctuation the
macro's matchers mention (`,`, `=>`, `=`, `<`, `>`), a brace-delimited group, and an
opaque clause shape. -/
inductive Tt where
  | ident (s : String)
  | comma
  | fatArrow
  | eqSign
  | lt
  | gt
  | braces (inner : List Tt)
  | shape (s : RawShape)

mutual

/-- Rendering of a shape back to source text, as Rust's `stringify!` does when the
macro builds a `compile_error!` message from matched token fragments. -/
def stringifyShape : RawShape → String
  | .path segs => String.intercalate " :: " segs
  | .litInt n => toString n
  | .litBool b => toString b
  | .call segs args => String.intercalate " :: " segs ++ "(" ++ stringifyShapeList args ++ ")"
  | .record segs fields =>
      String.intercalate " :: " segs ++ " \x7b " ++ stringifyShapeFields fields ++ " \x7d"
  | .alt a b => stringifyShape a ++ " | " ++ stringifyShape b

def stringifyShapeList : List RawShape → String
  | [] => ""
  | [s] => stringifyShape s
  | s :: rest => stringifyShape s ++ ", " ++ stringifyShapeList rest

def stringifyShapeFields : List (String × RawShape) → String
  | [] => ""
  | [(f, s)] => f ++ " : " ++ stringifyShape s
  | (f, s) :: rest => f ++ " : " ++ stringifyShape s ++ ", " ++ stringifyShapeFields rest

end

mutual

/-- `stringify!` on one token tree. -/
def stringifyTt : Tt → String
  | .ident s => s
  | .comma => ","
  | .fatArrow => "=>"
  | .eqSign => "="
  | .lt => "<"
  | .gt => ">"
  | .braces inner => "\x7b " ++ stringifyTts inner ++ " \x7d"
  | .shape s => stringifyShape s

/-- `stringify!` on a token-tree sequence (space-separated, as `stringify!` prints). -/
def stringifyTts : List Tt → String
  | [] => ""
  | [t] => stringifyTt t
  | t :: rest => stringifyTt t ++ " " ++ stringifyTts rest

end

/-- Generic-argument tail of the `:ty` fragment: `A, B, ... >` with plain-identifier
arguments, returning the consumed tokens and the rest of the stream. -/
def matchTyArgs : List Tt → Option (List Tt × List Tt)
  | .gt :: rest => some ([.gt], rest)
  | .ident a :: .gt :: rest => some ([.ident a, .gt], rest)
  | .ident a :: .comma :: rest =>
      match matchTyArgs rest with
      | some (c, r) => some (.ident a :: .comma :: c, r)
      | none => none
  | _ => none

/-- Rust's `:ty` fragment, restricted to the type forms this crate exercises: a plain
identifier, optionally with one level of angle-bracket generic arguments (e.g.
`Option<bool>`).  Like the host type parser it commits to the generic form as soon as
the identifier is followed by `<`. -/
def matchTy : List Tt → Option (List Tt × List Tt)
  | .ident s :: .lt :: rest =>
      match matchTyArgs rest with
      | some (c, r) => some (.ident s :: .lt :: c, r)
      | none => none
  | .ident s :: rest => some ([.ident s], rest)
  | _ => none

/-- Result of one macro invocation: either the two generated `From` impls (the matched
type tokens and, for each direction, the ordered arm list of the generated `match`), or
a `compile_error!` diagnostic.  `nativeReparse` carries the token fragment that the
invalid-pattern rule (lib.rs 224-243) additionally re-emits inside a native
`match unreachable!()` statement so the host reports a more specific underlying error;
the other diagnostic rules re-emit nothing. -/
inductive BijResult where
  | impls (tyA tyB : List Tt) (forward backward : List (Pat × Expr))
  | diag (msg : String) (nativeReparse : Option (List Tt))

/-- The internal `@`-rules of the macro (lib.rs 128-252), with the two doubled clause
views walked in lock step.  Arm order is the source order: final construction on two
empty views; the munch rule `pat_param => expr ,` / `expr => pat_param ,`; the terminal
munch rule without the trailing comma (fused here with the final-construction rule that
its recursion to `() ()` immediately reaches); and the invalid-pattern catch-all, which
stringifies the first remaining view after re-emitting it under a native `match`.  The
`@`-fallback rule (lib.rs 246-252) is unreachable from the entry rule, since the
catch-all accepts every pair of views. -/
def bijAt (tyA tyB : List Tt) : List (Pat × Expr) → List (Pat × Expr) → List Tt → List Tt →
    BijResult
  | fd, sd, [], [] => .impls tyA tyB fd sd
  | fd, sd, .shape l :: .fatArrow :: .shape r :: .comma :: rest1,
            .shape l2 :: .fatArrow :: .shape r2 :: .comma :: rest2 =>
      match asPatParam l, asPatParam r2 with
      | some pl, some pr =>
          bijAt tyA tyB (fd ++ [(pl, asExpr r)]) (sd ++ [(pr, asExpr l2)]) rest1 rest2
      | _, _ =>
          .diag ("Invalid bijection pattern:\n" ++
              stringifyTts (.shape l :: .fatArrow :: .shape r :: .comma :: rest1))
            (some (.shape l :: .fatArrow :: .shape r :: .comma :: rest1))
  | fd, sd, [.shape l, .fatArrow, .shape r], [.shape l2, .fatArrow, .shape r2] =>
      match asPatParam l, asPatParam r2 with
      | some pl, some pr =>
          .impls tyA tyB (fd ++ [(pl, asExpr r)]) (sd ++ [(pr, asExpr l2)])
      | _, _ =>
          .diag ("Invalid bijection pattern:\n" ++
              stringifyTts [.shape l, .fatArrow, .shape r])
            (some [.shape l, .fatArrow, .shape r])
  | _, _, rest1, _ =>
      .diag ("Invalid bijection pattern:\n" ++ stringifyTts rest1) (some rest1)

/-- Entry rule (lib.rs 153-165): `ty1, ty2, { bij }`, doubling the clause stream. -/
def armEntry (toks : List Tt) : Option BijResult :=
  match matchTy toks with
  | some (ty1, .comma :: rest1) =>
      match matchTy rest1 with
      | some (ty2, [.comma, .braces bij]) => some (bijAt ty1 ty2 [] [] bij bij)
      | _ => none
  | _ => none

/-- Missing-block rule (lib.rs 256-263): `ty1, ty2` with an optional trailing comma. -/
def armNoBlock (toks : List Tt) : Option BijResult :=
  match matchTy toks with
  | some (_, .comma :: rest1) =>
      match matchTy rest1 with
      | some (_, []) => some (.diag "Missing bijection declaration block after types" none)
      | some (_, [.comma]) => some (.diag "Missing bijection declaration block after types" none)
      | _ => none
  | _ => none

/-- Comma-before-block rule (lib.rs 265-272): `ty1, tt block`, where the second type is
matched as a single token tree. -/
def armCommaBlock (toks : List Tt) : Option BijResult :=
  match matchTy toks with
  | some (_, [.comma, _, .braces _]) =>
      some (.diag "Bijection declaration block must be separated with a comma" none)
  | _ => none

/-- Block-expected rule with comma (lib.rs 274-287): `ty1, tt, tts+`, quoting the
stringified trailing fragment. -/
def armBlockExpected (toks : List Tt) : Option BijResult :=
  match matchTy toks with
  | some (_, .comma :: _ :: .comma :: t :: rest) =>
      some (.diag ("Bijection declaration block expected (got: " ++
        stringifyTts (t :: rest) ++ ")") none)
  | _ => none

/-- Block-expected rule without comma (lib.rs 289-303): `ty1, tt tts+`, quoting the
stringified trailing fragment. -/
def armBlockExpectedNoComma (toks : List Tt) : Option BijResult :=
  match matchTy toks with
  | some (_, .comma :: _ :: t :: rest) =>
      some (.diag ("Bijection declaration block expected (got: " ++
        stringifyTts (t :: rest) ++ ")") none)
  | _ => none

/-- Missing-second-type rule (lib.rs 305-311): `ty1` optionally followed by a comma and
any token trees. -/
def armMissingSecond (toks : List Tt) : Option BijResult :=
  match matchTy toks with
  | some (_, []) => some (.diag "Missing second type" none)
  | some (_, .comma :: _) => some (.diag "Missing second type" none)
  | _ => none

/-- Single-type block rule (lib.rs 313-320): `ty1 block` directly, no comma. -/
def armSingleTypeBlock (toks : List Tt) : Option BijResult :=
  match matchTy toks with
  | some (_, [.braces _]) =>
      some (.diag "Bijection declaration block must be separated with a comma" none)
  | _ => none

/-- Bare-block rule (lib.rs 322-326): a brace group with no leading types. -/
def armBareBlock (toks : List Tt) : Option BijResult :=
  match toks with
  | [.braces _] => some (.diag "Missing types before declaration block" none)
  | _ => none

/-- The public macro: the non-`@` arms of `macro_rules! bijection`, tried in source
order, ending in the generic fallback (lib.rs 328-331). -/
def bijectionExpand (toks : List Tt) : BijResult :=
  match armEntry toks with
  | some r => r
  | none =>
  match armNoBlock toks with
  | some r => r
  | none =>
  match armCommaBlock toks with
  | some r => r
  | none =>
  match armBlockExpected toks with
  | some r => r
  | none =>
  match armBlockExpectedNoComma toks with
  | some r => r
  | none =>
  match armMissingSecond toks with
  | some r => r
  | none =>
  match armSingleTypeBlock toks with
  | some r => r
  | none =>
  match armBareBlock toks with
  | some r => r
  | none => .diag "Expected: TypeA, TypeB, \x7b /* bijection patterns */ \x7d" none

/-- Field lookup by name in a string-keyed association list (host struct-pattern
matching is by field name, and `let`-environment lookup takes the first binding). -/
def lookupField (f : String) : List (String × Value) → Option Value
  | [] => none
  | (g, v) :: rest => if f = g then some v else lookupField f rest

mutual

/-- Host pattern matching: `matchPat p v` is the captured bindings when `v` fits `p`.
Struct patterns match fields by name (field order is irrelevant, as in Rust) and must
name every field of the value; or-patterns try the left alternative first. -/
def matchPat : Pat → Value → Option (List (String × Value))
  | .bind x, v => some [(x, v)]
  | .litInt n, .int m => if n = m then some [] else none
  | .litBool b, .bool c => if b = c then some [] else none
  | .ctor n ps, .ctor n2 vs => if n = n2 then matchPatList ps vs else none
  | .record n fs, .record n2 vfs =>
      if n = n2 ∧ fs.length = vfs.length then matchPatFields fs vfs else none
  | .orPat p q, v =>
      match matchPat p v with
      | some env => some env
      | none => matchPat q v
  | _, _ => none

def matchPatList : List Pat → List Value → Option (List (String × Value))
  | [], [] => some []
  | p :: ps, v :: vs =>
      match matchPat p v, matchPatList ps vs with
      | some e1, some e2 => some (e1 ++ e2)
      | _, _ => none
  | _, _ => none

def matchPatFields : List (String × Pat) → List (String × Value) →
    Option (List (String × Value))
  | [], _ => some []
  | (f, p) :: rest, vfs =>
      match lookupField f vfs with
      | some v =>
          match matchPat p v, matchPatFields rest vfs with
          | some e1, some e2 => some (e1 ++ e2)
          | _, _ => none
      | none => none

end

mutual

/-- Host expression evaluation under the bindings captured by the matched pattern.
`bitOr` is Rust's `|` operator: bitwise or on integers, lazy-free or on booleans; on
anything else the host rejects the program (modeled as `none`). -/
def evalExpr : List (String × Value) → Expr → Option Value
  | env, .var x => lookupField x env
  | _, .litInt n => some (.int n)
  | _, .litBool b => some (.bool b)
  | env, .ctor n args =>
      match evalExprList env args with
      | some vs => some (.ctor n vs)
      | none => none
  | env, .record n fields =>
      match evalExprFields env fields with
      | some vfs => some (.record n vfs)
      | none => none
  | env, .bitOr a b =>
      match evalExpr env a, evalExpr env b with
      | some (.int x), some (.int y) => some (.int (Int.lor x y))
      | some (.bool x), some (.bool y) => some (.bool (x || y))
      | _, _ => none

def evalExprList : List (String × Value) → List Expr → Option (List Value)
  | _, [] => some []
  | env, e :: rest =>
      match evalExpr env e, evalExprList env rest with
      | some v, some vs => some (v :: vs)
      | _, _ => none

def evalExprFields : List (String × Value) → List (String × Expr) →
    Option (List (String × Value))
  | _, [] => some []
  | env, (f, e) :: rest =>
      match evalExpr env e, evalExprFields env rest with
      | some v, some vfs => some ((f, v) :: vfs)
      | _, _ => none

end

/-- The generated `match` dispatch: arms are tried top to bottom and the first arm
whose pattern matches wins; its right-hand side is evaluated under the captured
bindings.  This is the body of each generated `From::from` (lib.rs 136-150). -/
def runMatch : List (Pat × Expr) → Value → Option Value
  | [], _ => none
  | (p, e) :: rest, v =>
      match matchPat p v with
      | some env => evalExpr env e
      | none => runMatch rest v

/-- Forward arm list of a successful expansion (empty on a diagnostic). -/
def forwardArmsOf : BijResult → List (Pat × Expr)
  | .impls _ _ f _ => f
  | .diag _ _ => []

/-- Backward arm list of a successful expansion (empty on a diagnostic). -/
def backwardArmsOf : BijResult → List (Pat × Expr)
  | .impls _ _ _ b => b
  | .diag _ _ => []

/-- The generated forward conversion (side A to side B) as a function on values. -/
def forwardFn (r : BijResult) (v : Value) : Option Value := runMatch (forwardArmsOf r) v

/-- The generated backward conversion (side B to side A) as a function on values. -/
def backwardFn (r : BijResult) (v : Value) : Option Value := runMatch (backwardArmsOf r) v

/-- Whether a shape is an alternation at the top grouping level. -/
def isTopAlt : RawShape → Bool
  | .alt _ _ => true
  | _ => false

/-- Rendering of a structured type back to invocation tokens: generic-argument tail. -/
def renderTyArgs : List String → List Tt
  | [] => [.gt]
  | [a] => [.ident a, .gt]
  | a :: rest => .ident a :: .comma :: renderTyArgs rest

/-- A structured type of the restricted `:ty` grammar: a plain identifier or one level
of generics over plain identifiers. -/
inductive Ty where
  | base (s : String)
  | generic (s : String) (args : List String)

/-- Rendering of a structured type to tokens. -/
def renderTy : Ty → List Tt
  | .base s => [.ident s]
  | .generic s args => .ident s :: .lt :: renderTyArgs args

/-- Rendering of an authored clause list to clause-stream tokens, every clause with its
separator `=>` and a trailing comma. -/
def renderClauses : List (RawShape × RawShape) → List Tt
  | [] => []
  | (l, r) :: rest => .shape l :: .fatArrow :: .shape r :: .comma :: renderClauses rest

/-- Rendering of an authored nonempty clause list whose last clause has no trailing
comma (the separator-optional terminal form). -/
def renderClausesNoTrail : List (RawShape × RawShape) → List Tt
  | [] => []
  | [(l, r)] => [.shape l, .fatArrow, .shape r]
  | (l, r) :: rest => .shape l :: .fatArrow :: .shape r :: .comma :: renderClausesNoTrail rest

/-- A full well-shaped invocation: `ty1, ty2, { bij }`. -/
def mkInvocation (ty1 ty2 : Ty) (bij : List Tt) : List Tt :=
  renderTy ty1 ++ [.comma] ++ renderTy ty2 ++ [.comma, .braces bij]

/-- Forward arm derived from one authored clause: left side as pattern, right side as
expression. -/
def forwardArmOf (c : RawShape × RawShape) : Pat × Expr := (asPat c.1, asExpr c.2)

/-- Backward arm derived from one authored clause: right side as pattern, left side as
expression. -/
def backwardArmOf (c : RawShape × RawShape) : Pat × Expr := (asPat c.2, asExpr c.1)

/-- A clause list is well formed for the munch rules when no side is a top-level
alternation (`pat_param` refuses a top-level `|`). -/
def WfClauses (cs : List (RawShape × RawShape)) : Prop :=
  ∀ c ∈ cs, isTopAlt c.1 = false ∧ isTopAlt c.2 = false

/-- Invocation tokens of the `struct_point` test (lib.rs 457-459): one self-symmetric
clause with bound fields, `Point { x, y } => PointFlipped { y: x, x: y }` (field
shorthand written out as `x : x`). -/
def structPointToks : List Tt :=
  [.ident "Point", .comma, .ident "PointFlipped", .comma,
   .braces (renderClausesNoTrail
     [(.record ["Point"] [("x", .path ["x"]), ("y", .path ["y"])],
       .record ["PointFlipped"] [("y", .path ["x"]), ("x", .path ["y"])])])]

/-- Invocation tokens of the `struct_enum` test (lib.rs 480-484): literal clauses that
overlap the final binding clause. -/
def structEnumToks : List Tt :=
  [.ident "Point", .comma, .ident "PointEnum", .comma,
   .braces (renderClauses
     [(.record ["Point"] [("x", .litInt 0), ("y", .litInt 0)], .path ["PointEnum", "Zero"]),
      (.record ["Point"] [("x", .litInt 1), ("y", .litInt 1)], .path ["PointEnum", "OneOne"]),
      (.record ["Point"] [("x", .path ["x"]), ("y", .path ["y"])],
       .record ["PointEnum", "Other"] [("x", .path ["x"]), ("y", .path ["y"])])])]

/-- The `Point` value with the given field values. -/
def pointV (a b : Int) : Value := .record "Point" [("x", .int a), ("y", .int b)]

/-- Forward arm list the macro derives from `structEnumToks` (spelled out). -/
def structEnumFwd : List (Pat × Expr) :=
  [(.record "Point" [("x", .litInt 0), ("y", .litInt 0)], .ctor "PointEnum::Zero" []),
   (.record "Point" [("x", .litInt 1), ("y", .litInt 1)], .ctor "PointEnum::OneOne" []),
   (.record "Point" [("x", .bind "x"), ("y", .bind "y")],
    .record "PointEnum::Other" [("x", .var "x"), ("y", .var "y")])]

/-- Backward arm list the macro derives from `structEnumToks` (spelled out). -/
def structEnumBwd : List (Pat × Expr) :=
  [(.ctor "PointEnum::Zero" [], .record "Point" [("x", .litInt 0), ("y", .litInt 0)]),
   (.ctor "PointEnum::OneOne" [], .record "Point" [("x", .litInt 1), ("y", .litInt 1)]),
   (.record "PointEnum::Other" [("x", .bind "x"), ("y", .bind "y")],
    .record "Point" [("x", .var "x"), ("y", .var "y")])]

/-- Invocation tokens of the `two_variants` test (lib.rs 434-437). -/
def twoVariantToks : List Tt :=
  [.ident "Foo", .comma, .ident "Bar", .comma,
   .braces (renderClauses
     [(.path ["Foo", "A"], .path ["Bar", "X"]),
      (.path ["Foo", "B"], .path ["Bar", "Y"])])]

/-- Invocation tokens of the `unreachable_patterns` test (lib.rs 504-509): deliberately
overlapping clauses `Foo(0) => Bar(0)`, `Foo(1) => Bar(0)`, `Foo(1) => Bar(1)`,
`Foo(x) => Bar(x)`. -/
def fooBarToks : List Tt :=
  [.ident "Foo", .comma, .ident "Bar", .comma,
   .braces (renderClauses
     [(.call ["Foo"] [.litInt 0], .call ["Bar"] [.litInt 0]),
      (.call ["Foo"] [.litInt 1], .call ["Bar"] [.litInt 0]),
      (.call ["Foo"] [.litInt 1], .call ["Bar"] [.litInt 1]),
      (.call ["Foo"] [.path ["x"]], .call ["Bar"] [.path ["x"]])])]

/-- Invocation tokens of the doc-comment caveat example (lib.rs 120): a clause whose
left side nests an alternation inside a sub-shape, `Foo(2 | 3) => Bar(1)`. -/
def nestedAltToks : List Tt :=
  [.ident "Foo", .comma, .ident "Bar", .comma,
   .braces (renderClauses [(.call ["Foo"] [.alt (.litInt 2) (.litInt 3)],
                            .call ["Bar"] [.litInt 1])])]

/-- Invocation with a multi-token second type and the comma before the block missing:
`Foo, Option<bool> { None => Tristate::Neutral, }`. -/
def c10Toks : List Tt :=
  [.ident "Foo", .comma, .ident "Option", .lt, .ident "bool", .gt,
   .braces (renderClauses [(.path ["None"], .path ["Tristate", "Neutral"])])]

/-- The leftover tokens of `c10Toks` after `$second_ty:tt` grabbed only `Option`. -/
def c10Leftover : List Tt :=
  [.lt, .ident "bool", .gt,
   .braces (renderClauses [(.path ["None"], .path ["Tristate", "Neutral"])])]

/-- Block fragment used for the single-type-block counterexample: `{ Foo::A => Bar::X }`. -/
def c8BlockFrag : List Tt :=
  [.braces [.shape (.path ["Foo", "A"]), .fatArrow, .shape (.path ["Bar", "X"])]]

/-- A shape that is not a top-level alternation passes the `pat_param` fragment and is
read as its pattern form. -/
theorem asPatParam_eq (s : RawShape) (h : isTopAlt s = false) :
    asPatParam s = some (asPat s) := by
  cases s <;> simp [asPatParam, isTopAlt] at h ⊢

/-- The `:ty` generic-argument parser inverts the renderer. -/
theorem matchTyArgs_render (args : List String) (rest : List Tt) :
    matchTyArgs (renderTyArgs args ++ rest) = some (renderTyArgs args, rest) := by
  induction args with
  | nil => simp [renderTyArgs, matchTyArgs]
  | cons a tail ih =>
      cases tail with
      | nil => simp [renderTyArgs, matchTyArgs]
      | cons b tail2 => simp [renderTyArgs, matchTyArgs, ih]

/-- The `:ty` fragment parser inverts the type renderer, provided the following token
is not `<` (after which the host type parser would commit to a generic form). -/
theorem matchTy_render (t : Ty) (rest : List Tt) (h : ∀ r, rest ≠ Tt.lt :: r) :
    matchTy (renderTy t ++ rest) = some (renderTy t, rest) := by
  cases t with
  | base s =>
      cases rest with
      | nil => simp [renderTy, matchTy]
      | cons x r =>
          cases x <;> simp [renderTy, matchTy]
          exact absurd rfl (h r)
  | generic s args => simp [renderTy, matchTy, matchTyArgs_render]

/-- Lock-step progress of the munch rule: a well-formed clause prefix is consumed one
clause per step from both doubled views, appending the forward arm of clause `i` to the
first accumulator and the backward arm of clause `i` to the second, in authored order,
whatever follows the prefix. -/
theorem bijAt_renderClauses (tyA tyB : List Tt) (cs : List (RawShape × RawShape))
    (h : WfClauses cs) (fd sd : List (Pat × Expr)) (suffix : List Tt) :
    bijAt tyA tyB fd sd (renderClauses cs ++ suffix) (renderClauses cs ++ suffix) =
      bijAt tyA tyB (fd ++ cs.map forwardArmOf) (sd ++ cs.map backwardArmOf) suffix suffix := by
  induction cs generalizing fd sd with
  | nil => simp [renderClauses]
  | cons c rest ih =>
      obtain ⟨l, r⟩ := c
      have hc := h (l, r) (by simp)
      have hrest : WfClauses rest := fun c hcmem => h c (by simp [hcmem])
      simp only [renderClauses, List.cons_append, bijAt,
        asPatParam_eq l hc.1, asPatParam_eq r hc.2]
      simp only [List.append_eq]
      rw [ih hrest]
      simp [forwardArmOf, backwardArmOf]

/-- The terminal munch rule: a nonempty well-formed clause stream whose last clause has
no trailing comma is consumed completely, yielding the final construction. -/
theorem bijAt_renderNoTrail (tyA tyB : List Tt) (cs : List (RawShape × RawShape))
    (hne : cs ≠ []) (h : WfClauses cs) (fd sd : List (Pat × Expr)) :
    bijAt tyA tyB fd sd (renderClausesNoTrail cs) (renderClausesNoTrail cs) =
      .impls tyA tyB (fd ++ cs.map forwardArmOf) (sd ++ cs.map backwardArmOf) := by
  induction cs generalizing fd sd with
  | nil => exact absurd rfl hne
  | cons c rest ih =>
      obtain ⟨l, r⟩ := c
      have hc := h (l, r) (by simp)
      have hrest : WfClauses rest := fun c hcmem => h c (by simp [hcmem])
      cases rest with
      | nil =>
          simp only [renderClausesNoTrail, bijAt, asPatParam_eq l hc.1, asPatParam_eq r hc.2]
          simp [forwardArmOf, backwardArmOf]
      | cons c2 rest2 =>
          simp only [renderClausesNoTrail, bijAt,
            asPatParam_eq l hc.1, asPatParam_eq r hc.2]
          rw [ih (by simp) hrest]
          simp [forwardArmOf, backwardArmOf]

/-- The entry rule fires on every well-shaped invocation `ty1, ty2, { bij }` and starts
the lock-step walk on the doubled clause stream. -/
theorem bijectionExpand_entry (t1 t2 : Ty) (bij : List Tt) :
    bijectionExpand (mkInvocation t1 t2 bij) =
      bijAt (renderTy t1) (renderTy t2) [] [] bij bij := by
  have h1 : matchTy (renderTy t1 ++ (.comma :: (renderTy t2 ++ [.comma, .braces bij]))) =
      some (renderTy t1, .comma :: (renderTy t2 ++ [.comma, .braces bij])) :=
    matchTy_render t1 _ (by intro r hr; cases hr)
  have h2 : matchTy (renderTy t2 ++ [.comma, .braces bij]) =
      some (renderTy t2, [.comma, .braces bij]) :=
    matchTy_render t2 _ (by intro r hr; cases hr)
  have hmk : mkInvocation t1 t2 bij =
      renderTy t1 ++ (.comma :: (renderTy t2 ++ [.comma, .braces bij])) := by
    simp [mkInvocation]
  rw [hmk]
  simp [bijectionExpand, armEntry, h1, h2]

/-- Claim C1: for every well-formed declaration (any two types, any clause list with no
top-level alternation, with or without the optional trailing comma, including the
zero-clause case) the normalizer expands to the two `From` impls whose forward and
backward arm lists both have exactly one arm per source clause, and the arm at index
`i` of each list is derived from the same source clause `i` in authored order (forward:
left as pattern, right as expression; backward: right as pattern, left as expression). -/
theorem c1_arm_lists_aligned (t1 t2 : Ty) (cs : List (RawShape × RawShape))
    (h : WfClauses cs) :
    bijectionExpand (mkInvocation t1 t2 (renderClauses cs)) =
      .impls (renderTy t1) (renderTy t2) (cs.map forwardArmOf) (cs.map backwardArmOf)
  ∧ (cs.map forwardArmOf).length = cs.length
  ∧ (cs.map backwardArmOf).length = cs.length
  ∧ (∀ i : Nat, (cs.map forwardArmOf)[i]? = (cs[i]?).map forwardArmOf
      ∧ (cs.map backwardArmOf)[i]? = (cs[i]?).map backwardArmOf)
  ∧ (cs ≠ [] → bijectionExpand (mkInvocation t1 t2 (renderClausesNoTrail cs)) =
      .impls (renderTy t1) (renderTy t2) (cs.map forwardArmOf) (cs.map backwardArmOf)) := by
  refine ⟨?_, by simp, by simp, fun i => ⟨by simp, by simp⟩, fun hne => ?_⟩
  · rw [bijectionExpand_entry]
    have := bijAt_renderClauses (renderTy t1) (renderTy t2) cs h [] [] []
    simpa using this
  · rw [bijectionExpand_entry]
    simpa using bijAt_renderNoTrail (renderTy t1) (renderTy t2) cs hne h [] []

/-- Witness for C1 at the two-clause `two_variants` declaration of the test suite. -/
theorem c1_arm_lists_aligned_witness :
    bijectionExpand twoVariantToks =
      .impls [.ident "Foo"] [.ident "Bar"]
        [(.ctor "Foo::A" [], .ctor "Bar::X" []), (.ctor "Foo::B" [], .ctor "Bar::Y" [])]
        [(.ctor "Bar::X" [], .ctor "Foo::A" []), (.ctor "Bar::Y" [], .ctor "Foo::B" [])] := by
  have h := c1_arm_lists_aligned (.base "Foo") (.base "Bar")
      [(.path ["Foo", "A"], .path ["Bar", "X"]), (.path ["Foo", "B"], .path ["Bar", "Y"])]
      (by intro c hc; fin_cases hc <;> exact ⟨rfl, rfl⟩)
  exact h.1

/-- Claim C2: the per-clause round trip.  For the crate's test declarations whose
clause sets are genuine bijections on the side-A values, applying the generated forward
conversion to any value matching a clause's left shape (with its captured bindings) and
then the generated backward conversion reproduces the original value.  Shown for every
side-A value of the `struct_point` declaration (one binding clause), of the
`struct_enum` declaration (literal clauses overlapping a final binding clause), and for
both directions of the `two_variants` declaration. -/
theorem c2_roundtrip :
    (∀ a b : Int, (forwardFn (bijectionExpand structPointToks) (pointV a b)).bind
      (backwardFn (bijectionExpand structPointToks)) = some (pointV a b))
  ∧ (∀ a b : Int, (forwardFn (bijectionExpand structEnumToks) (pointV a b)).bind
      (backwardFn (bijectionExpand structEnumToks)) = some (pointV a b))
  ∧ (forwardFn (bijectionExpand twoVariantToks) (.ctor "Foo::A" [])).bind
      (backwardFn (bijectionExpand twoVariantToks)) = some (.ctor "Foo::A" [])
  ∧ (forwardFn (bijectionExpand twoVariantToks) (.ctor "Foo::B" [])).bind
      (backwardFn (bijectionExpand twoVariantToks)) = some (.ctor "Foo::B" [])
  ∧ (backwardFn (bijectionExpand twoVariantToks) (.ctor "Bar::X" [])).bind
      (forwardFn (bijectionExpand twoVariantToks)) = some (.ctor "Bar::X" [])
  ∧ (backwardFn (bijectionExpand twoVariantToks) (.ctor "Bar::Y" [])).bind
      (forwardFn (bijectionExpand twoVariantToks)) = some (.ctor "Bar::Y" []) := by
  refine ⟨fun a b => rfl, fun a b => ?_, rfl, rfl, rfl, rfl⟩
  have hE : bijectionExpand structEnumToks =
      .impls [.ident "Point"] [.ident "PointEnum"] structEnumFwd structEnumBwd := rfl
  rw [hE]
  rcases eq_or_ne a 0 with rfl | ha
  · rcases eq_or_ne b 0 with rfl | hb
    · rfl
    · have hb2 : ((0 : Int) = b) = False := by simp [eq_comm, hb]
      simp [forwardFn, backwardFn, forwardArmsOf, backwardArmsOf, structEnumFwd,
        structEnumBwd, runMatch, matchPat, matchPatFields, matchPatList, lookupField,
        evalExpr, evalExprFields, evalExprList, hb2, pointV]
  · have ha2 : ((0 : Int) = a) = False := by simp [eq_comm, ha]
    rcases eq_or_ne a 1 with rfl | ha1
    · rcases eq_or_ne b 1 with rfl | hb1
      · rfl
      · have hb2 : ((1 : Int) = b) = False := by simp [eq_comm, hb1]
        simp [forwardFn, backwardFn, forwardArmsOf, backwardArmsOf, structEnumFwd,
          structEnumBwd, runMatch, matchPat, matchPatFields, matchPatList, lookupField,
          evalExpr, evalExprFields, evalExprList, hb2, pointV]
    · have ha3 : ((1 : Int) = a) = False := by simp [eq_comm, ha1]
      simp [forwardFn, backwardFn, forwardArmsOf, backwardArmsOf, structEnumFwd,
        structEnumBwd, runMatch, matchPat, matchPatFields, matchPatList, lookupField,
        evalExpr, evalExprFields, evalExprList, ha2, ha3, pointV]

/-- Claim C3: ordered, first-match-wins dispatch.  In a generated conversion whose arm
list contains `(L1, R1)` before any later arms (in particular before an overlapping
`(L2, R2)`), a value that matches `L1` — and none of the arms preceding `L1` — is
converted by `R1` under `L1`'s captured bindings, whatever the later arms are: the
later arms are never consulted. -/
theorem c3_first_match_wins (pre : List (Pat × Expr)) (L1 : Pat) (R1 : Expr)
    (rest : List (Pat × Expr)) (v : Value) (env : List (String × Value))
    (hpre : ∀ a ∈ pre, matchPat a.1 v = none) (hmatch : matchPat L1 v = some env) :
    runMatch (pre ++ (L1, R1) :: rest) v = evalExpr env R1
  ∧ runMatch (pre ++ (L1, R1) :: rest) v = runMatch (pre ++ [(L1, R1)]) v := by
  have key : ∀ rest2 : List (Pat × Expr),
      runMatch (pre ++ (L1, R1) :: rest2) v = evalExpr env R1 := by
    intro rest2
    induction pre with
    | nil => simp [runMatch, hmatch]
    | cons a pre2 ih =>
        obtain ⟨p, e⟩ := a
        have hp : matchPat p v = none := hpre (p, e) (by simp)
        simp only [List.cons_append, runMatch, hp]
        exact ih fun a ha => hpre a (by simp [ha])
  exact ⟨key rest, by rw [key rest, key []]⟩

/-- Witness for C3 at the `unreachable_patterns` declaration: `Foo(1)` matches both the
clause `Foo(1) => Bar(0)` and the later clause `Foo(1) => Bar(1)`, and the generated
forward conversion produces `Bar(0)`, the earlier right-hand side. -/
theorem c3_first_match_wins_witness :
    runMatch (forwardArmsOf (bijectionExpand fooBarToks)) (.ctor "Foo" [.int 1]) =
      some (.ctor "Bar" [.int 0]) := by
  have h := c3_first_match_wins
      [(.ctor "Foo" [.litInt 0], .ctor "Bar" [.litInt 0])]
      (.ctor "Foo" [.litInt 1]) (.ctor "Bar" [.litInt 0])
      [(.ctor "Foo" [.litInt 1], .ctor "Bar" [.litInt 1]),
       (.ctor "Foo" [.bind "x"], .ctor "Bar" [.var "x"])]
      (.ctor "Foo" [.int 1]) []
      (by intro a ha; rw [List.mem_singleton] at ha; subst ha; rfl)
      rfl
  exact h.1

/-- Claim C4: a malformed clause (here the claim's example shape, `=` in place of `=>`,
with anything following) aborts normalization for the whole declaration — however many
well-formed clauses preceded it, the expansion is a single diagnostic and no functions:
the uniform message names the offending remaining fragment of the clause list, and that
same fragment is re-emitted under a native `match` (the `nativeReparse` component) to
obtain the host's more specific underlying error. -/
theorem c4_malformed_clause_aborts (t1 t2 : Ty) (cs : List (RawShape × RawShape))
    (h : WfClauses cs) (l r : RawShape) (tail : List Tt) :
    bijectionExpand
        (mkInvocation t1 t2 (renderClauses cs ++ (.shape l :: .eqSign :: .shape r :: tail))) =
      .diag ("Invalid bijection pattern:\n" ++
          stringifyTts (.shape l :: .eqSign :: .shape r :: tail))
        (some (.shape l :: .eqSign :: .shape r :: tail)) := by
  rw [bijectionExpand_entry, bijAt_renderClauses _ _ cs h [] [] _]
  rfl

/-- Witness for C4: one good clause followed by `Foo::A = Bar::X` (no trailing tokens). -/
theorem c4_malformed_clause_aborts_witness :
    bijectionExpand
        (mkInvocation (.base "Foo") (.base "Bar")
          (renderClauses [(.path ["Foo", "A"], .path ["Bar", "X"])] ++
            [.shape (.path ["Foo", "B"]), .eqSign, .shape (.path ["Bar", "Y"])])) =
      .diag ("Invalid bijection pattern:\n" ++
          stringifyTts [.shape (.path ["Foo", "B"]), .eqSign, .shape (.path ["Bar", "Y"])])
        (some [.shape (.path ["Foo", "B"]), .eqSign, .shape (.path ["Bar", "Y"])]) :=
  c4_malformed_clause_aborts (.base "Foo") (.base "Bar")
    [(.path ["Foo", "A"], .path ["Bar", "X"])]
    (by intro c hc; fin_cases hc; exact ⟨rfl, rfl⟩)
    (.path ["Foo", "B"]) (.path ["Bar", "Y"]) []

/-- Claim C5: a clause whose left or right shape is an alternation at the top grouping
level makes the munch rules fail (the `pat_param` fragment refuses a top-level `|` in
whichever doubled view puts that side in pattern position), so the declaration expands
to the invalid-pattern diagnostic and no conversion functions; an alternation nested
inside a sub-shape is not rejected — the declaration still expands to the two impls —
and in the expression role the alternation silently becomes the bitwise-or operator:
for `Foo(2 | 3) => Bar(1)` the backward conversion maps `Bar(1)` to `Foo(3)` (`2 | 3`
computed bitwise), while in the pattern role it still matches `Foo(2)` and `Foo(3)`. -/
theorem c5_alternation_policy (t1 t2 : Ty) :
    (∀ a b r : RawShape,
      bijectionExpand (mkInvocation t1 t2 (renderClauses [(.alt a b, r)])) =
        .diag ("Invalid bijection pattern:\n" ++ stringifyTts (renderClauses [(.alt a b, r)]))
          (some (renderClauses [(.alt a b, r)])))
  ∧ (∀ l a b : RawShape, isTopAlt l = false →
      bijectionExpand (mkInvocation t1 t2 (renderClauses [(l, .alt a b)])) =
        .diag ("Invalid bijection pattern:\n" ++ stringifyTts (renderClauses [(l, .alt a b)]))
          (some (renderClauses [(l, .alt a b)])))
  ∧ bijectionExpand nestedAltToks =
      .impls [.ident "Foo"] [.ident "Bar"]
        [(.ctor "Foo" [.orPat (.litInt 2) (.litInt 3)], .ctor "Bar" [.litInt 1])]
        [(.ctor "Bar" [.litInt 1], .ctor "Foo" [.bitOr (.litInt 2) (.litInt 3)])]
  ∧ forwardFn (bijectionExpand nestedAltToks) (.ctor "Foo" [.int 2]) =
      some (.ctor "Bar" [.int 1])
  ∧ forwardFn (bijectionExpand nestedAltToks) (.ctor "Foo" [.int 3]) =
      some (.ctor "Bar" [.int 1])
  ∧ backwardFn (bijectionExpand nestedAltToks) (.ctor "Bar" [.int 1]) =
      some (.ctor "Foo" [.int 3]) := by
  refine ⟨fun a b r => ?_, fun l a b hl => ?_, rfl, rfl, rfl, rfl⟩
  · rw [bijectionExpand_entry]
    cases hr : asPatParam r <;> simp [renderClauses, bijAt, asPatParam, hr]
  · rw [bijectionExpand_entry]
    simp [renderClauses, bijAt, asPatParam_eq l hl, asPatParam]

/-- Witness for C5: the rejected right-side alternation
`Foo(0) => Bar(0) | Bar(1)` with a concrete well-formed left side. -/
theorem c5_alternation_policy_witness :
    bijectionExpand
        (mkInvocation (.base "Foo") (.base "Bar")
          (renderClauses [(.call ["Foo"] [.litInt 0],
            .alt (.call ["Bar"] [.litInt 0]) (.call ["Bar"] [.litInt 1]))])) =
      .diag ("Invalid bijection pattern:\n" ++
          stringifyTts (renderClauses [(.call ["Foo"] [.litInt 0],
            .alt (.call ["Bar"] [.litInt 0]) (.call ["Bar"] [.litInt 1]))]))
        (some (renderClauses [(.call ["Foo"] [.litInt 0],
          .alt (.call ["Bar"] [.litInt 0]) (.call ["Bar"] [.litInt 1]))])) :=
  (c5_alternation_policy (.base "Foo") (.base "Bar")).2.1
    (.call ["Foo"] [.litInt 0]) (.call ["Bar"] [.litInt 0]) (.call ["Bar"] [.litInt 1]) rfl

/-- Claim C6: a declaration of exactly two types and nothing else (with or without the
optional trailing comma) yields the specific missing-block diagnostic — the
missing-block rule fires, not the generic fallback — and a bare brace-delimited block
with no leading types yields the missing-types diagnostic. -/
theorem c6_targeted_diagnostics (t1 t2 : Ty) (inner : List Tt) :
    bijectionExpand (renderTy t1 ++ [.comma] ++ renderTy t2) =
      .diag "Missing bijection declaration block after types" none
  ∧ bijectionExpand (renderTy t1 ++ [.comma] ++ renderTy t2 ++ [.comma]) =
      .diag "Missing bijection declaration block after types" none
  ∧ bijectionExpand [.braces inner] = .diag "Missing types before declaration block" none := by
  refine ⟨?_, ?_, rfl⟩
  · have h1 : matchTy (renderTy t1 ++ (.comma :: renderTy t2)) =
        some (renderTy t1, .comma :: renderTy t2) :=
      matchTy_render t1 _ (by intro r hr; cases hr)
    have h2 : matchTy (renderTy t2) = some (renderTy t2, []) := by
      have := matchTy_render t2 [] (by intro r hr; cases hr)
      simpa using this
    simp only [List.append_assoc, List.cons_append, List.nil_append]
    simp [bijectionExpand, armEntry, armNoBlock, h1, h2]
  · have h1 : matchTy (renderTy t1 ++ (.comma :: (renderTy t2 ++ [.comma]))) =
        some (renderTy t1, .comma :: (renderTy t2 ++ [.comma])) :=
      matchTy_render t1 _ (by intro r hr; cases hr)
    have h2 : matchTy (renderTy t2 ++ [.comma]) = some (renderTy t2, [.comma]) :=
      matchTy_render t2 _ (by intro r hr; cases hr)
    simp only [List.append_assoc, List.cons_append, List.nil_append]
    simp [bijectionExpand, armEntry, armNoBlock, h1, h2]

/-- The type fragment rejects an empty stream. -/
theorem matchTy_nil : matchTy [] = none := rfl

/-- Claim C7 counterexample: `bijection!(Foo, => \x7b\x7d)` supplies one type only
(neither `=>` nor `\x7b\x7d` is a type), followed by a comma and further content, yet
the expansion is the comma-separation diagnostic of the `ty, tt block` rule — not the
claimed uniform `Missing second type` — because the earlier malformed-declaration rules
match the second position as a bare token tree, not as a type. -/
theorem c7_counterexample :
    bijectionExpand [.ident "Foo", .comma, .fatArrow, .braces []] =
      .diag "Bijection declaration block must be separated with a comma" none
  ∧ "Bijection declaration block must be separated with a comma" ≠ "Missing second type" :=
  ⟨rfl, by decide⟩

/-- Claim C7 as amended: an invocation supplying one type yields `Missing second type`
when the type is followed by nothing, by a lone trailing comma, or by a comma and one
single token tree that is not itself a type; one-type invocations whose post-comma
content is longer are instead captured by the earlier two-type rules, whose second
position is a bare token tree. -/
theorem c7_missing_second_type (t : Ty) (tok : Tt) (h : matchTy [tok] = none) :
    bijectionExpand (renderTy t) = .diag "Missing second type" none
  ∧ bijectionExpand (renderTy t ++ [.comma]) = .diag "Missing second type" none
  ∧ bijectionExpand (renderTy t ++ [.comma, tok]) = .diag "Missing second type" none := by
  refine ⟨?_, ?_, ?_⟩
  · have h1 : matchTy (renderTy t) = some (renderTy t, []) := by
      have := matchTy_render t [] (by intro r hr; cases hr)
      simpa using this
    simp [bijectionExpand, armEntry, armNoBlock, armCommaBlock, armBlockExpected,
      armBlockExpectedNoComma, armMissingSecond, h1]
  · have h1 : matchTy (renderTy t ++ [.comma]) = some (renderTy t, [.comma]) :=
      matchTy_render t _ (by intro r hr; cases hr)
    simp [bijectionExpand, armEntry, armNoBlock, armCommaBlock, armBlockExpected,
      armBlockExpectedNoComma, armMissingSecond, h1, matchTy_nil]
  · have h1 : matchTy (renderTy t ++ [.comma, tok]) = some (renderTy t, [.comma, tok]) :=
      matchTy_render t _ (by intro r hr; cases hr)
    simp [bijectionExpand, armEntry, armNoBlock, armCommaBlock, armBlockExpected,
      armBlockExpectedNoComma, armMissingSecond, h1, h]

/-- Witness for the amended C7: `bijection!(Foo, =>)`. -/
theorem c7_missing_second_type_witness :
    bijectionExpand [.ident "Foo", .comma, .fatArrow] = .diag "Missing second type" none :=
  (c7_missing_second_type (.base "Foo") .fatArrow rfl).2.2

/-- A single token tree followed by a comma either fails the type fragment or is
consumed alone by it. -/
theorem matchTy_cons_comma (tok : Tt) (rest : List Tt) :
    matchTy (tok :: .comma :: rest) = none ∨
    matchTy (tok :: .comma :: rest) = some ([tok], .comma :: rest) := by
  cases tok <;> simp [matchTy]

/-- Claim C8 counterexample: for the single-type-block rule (priority rule 6), at input
`Foo \x7b Foo::A => Bar::X \x7d` the reported message is the fixed comma-separation
string, and the stringified offending fragment does not occur in it — the message does
not reference the actually-supplied fragment. -/
theorem c8_counterexample :
    bijectionExpand ([.ident "Foo"] ++ c8BlockFrag) =
      .diag "Bijection declaration block must be separated with a comma" none
  ∧ ¬ ((stringifyTts c8BlockFrag).data <:+:
      ("Bijection declaration block must be separated with a comma").data) :=
  ⟨rfl, by decide⟩

/-- Claim C8 as amended: the block-expected rule (priority rule 3: two leading
positions, a comma, then content that is not a single brace-delimited block) quotes the
stringified offending fragment inside its message; the single-type-block rule (priority
rule 6) instead reports a fixed comma-separation message that is independent of the
supplied block fragment and therefore references no fragment. -/
theorem c8_fragment_in_message (t1 : Ty) (tok2 f : Tt) (frag2 : List Tt)
    (h1 : ∀ inner, f :: frag2 ≠ [Tt.braces inner]) :
    bijectionExpand (renderTy t1 ++ (.comma :: tok2 :: .comma :: f :: frag2)) =
      .diag ("Bijection declaration block expected (got: " ++
        stringifyTts (f :: frag2) ++ ")") none
  ∧ (stringifyTts (f :: frag2)).data <:+:
      ("Bijection declaration block expected (got: " ++ stringifyTts (f :: frag2) ++ ")").data
  ∧ (∀ inner, bijectionExpand (renderTy t1 ++ [.braces inner]) =
      .diag "Bijection declaration block must be separated with a comma" none) := by
  refine ⟨?_, ?_, fun inner => ?_⟩
  · have h0 : matchTy (renderTy t1 ++ (.comma :: tok2 :: .comma :: f :: frag2)) =
        some (renderTy t1, .comma :: tok2 :: .comma :: f :: frag2) :=
      matchTy_render t1 _ (by intro r hr; cases hr)
    have hE : armEntry (renderTy t1 ++ (.comma :: tok2 :: .comma :: f :: frag2)) = none := by
      rcases matchTy_cons_comma tok2 (f :: frag2) with htok | htok
      · simp [armEntry, h0, htok]
      · cases f with
        | braces inner =>
            cases frag2 with
            | nil => exact absurd rfl (h1 inner)
            | cons g frag3 => simp [armEntry, h0, htok]
        | ident s => simp [armEntry, h0, htok]
        | comma => simp [armEntry, h0, htok]
        | fatArrow => simp [armEntry, h0, htok]
        | eqSign => simp [armEntry, h0, htok]
        | lt => simp [armEntry, h0, htok]
        | gt => simp [armEntry, h0, htok]
        | shape s => simp [armEntry, h0, htok]
    have hN : armNoBlock (renderTy t1 ++ (.comma :: tok2 :: .comma :: f :: frag2)) = none := by
      rcases matchTy_cons_comma tok2 (f :: frag2) with htok | htok <;>
        simp [armNoBlock, h0, htok]
    simp [bijectionExpand, hE, hN, armCommaBlock, armBlockExpected, h0]
  · refine ⟨("Bijection declaration block expected (got: ").data, (")").data, ?_⟩
    simp
  · have h0 : matchTy (renderTy t1 ++ [.braces inner]) =
        some (renderTy t1, [.braces inner]) :=
      matchTy_render t1 _ (by intro r hr; cases hr)
    simp [bijectionExpand, armEntry, armNoBlock, armCommaBlock, armBlockExpected,
      armBlockExpectedNoComma, armMissingSecond, armSingleTypeBlock, h0]

/-- Witness for the amended C8: `bijection!(Foo, Bar, Foo::A => Bar::X)`, whose
message quotes the trailing fragment. -/
theorem c8_fragment_in_message_witness :
    bijectionExpand ([.ident "Foo"] ++
        (.comma :: .ident "Bar" :: .comma ::
          .shape (.path ["Foo", "A"]) :: [.fatArrow, .shape (.path ["Bar", "X"])])) =
      .diag ("Bijection declaration block expected (got: " ++
        stringifyTts (.shape (.path ["Foo", "A"]) :: [.fatArrow, .shape (.path ["Bar", "X"])]) ++
        ")") none :=
  (c8_fragment_in_message (.base "Foo") (.ident "Bar") (.shape (.path ["Foo", "A"]))
    [.fatArrow, .shape (.path ["Bar", "X"])] (by intro inner h; cases h)).1

/-- Claim C9: the transformation is total and each normalization step strictly consumes
one clause.  Every invocation expands to either two function definitions or one
diagnostic (the result type has no other outcome), and one munch step on the doubled
views turns the state over `clause , rest` (both views) into the state over `rest`
(both views) with exactly the one derived arm appended to each accumulator — the
remaining clause stream shrinks by one clause per step, so the recursion on a finite
stream terminates (in this embedding `bijAt` is structurally recursive on the first
view). -/
theorem c9_terminates :
    (∀ toks : List Tt, (∃ a b f g, bijectionExpand toks = .impls a b f g) ∨
      (∃ m o, bijectionExpand toks = .diag m o))
  ∧ (∀ (tyA tyB : List Tt) (fd sd : List (Pat × Expr)) (l r : RawShape) (rest : List Tt)
      (pl pr : Pat), asPatParam l = some pl → asPatParam r = some pr →
      bijAt tyA tyB fd sd (.shape l :: .fatArrow :: .shape r :: .comma :: rest)
          (.shape l :: .fatArrow :: .shape r :: .comma :: rest) =
        bijAt tyA tyB (fd ++ [(pl, asExpr r)]) (sd ++ [(pr, asExpr l)]) rest rest) := by
  constructor
  · intro toks
    cases h : bijectionExpand toks with
    | impls a b f g => exact .inl ⟨a, b, f, g, rfl⟩
    | diag m o => exact .inr ⟨m, o, rfl⟩
  · intro tyA tyB fd sd l r rest pl pr h1 h2
    simp [bijAt, h1, h2]

/-- Witness for C9: one munch step on a concrete one-clause state, and totality at a
concrete invocation. -/
theorem c9_terminates_witness :
    bijAt [] [] [] [] [.shape (.path ["A"]), .fatArrow, .shape (.path ["X"]), .comma]
        [.shape (.path ["A"]), .fatArrow, .shape (.path ["X"]), .comma] =
      bijAt [] [] [(.bind "A", .var "X")] [(.bind "X", .var "A")] [] []
  ∧ ((∃ a b f g, bijectionExpand [.braces []] = .impls a b f g) ∨
      (∃ m o, bijectionExpand [.braces []] = .diag m o)) :=
  ⟨c9_terminates.2 [] [] [] [] (.path ["A"]) (.path ["X"]) [] (.bind "A") (.bind "X") rfl rfl,
   c9_terminates.1 [.braces []]⟩

/-- Claim C10: in the malformed-declaration rules the second type is matched as a
single token tree.  For `bijection!(Foo, Option<bool> { ... })` — the second type
spanning four token trees, the comma before the block missing — the comma-separation
rule does not match (its `$second_ty:tt` grabs only `Option` and then requires an
immediate block, but `<` follows), and the invocation instead hits the
block-expected rule, whose message quotes the leftover tokens `< bool > { ... }`. -/
theorem c10_second_type_single_tt :
    bijectionExpand c10Toks =
      .diag ("Bijection declaration block expected (got: " ++ stringifyTts c10Leftover ++ ")")
        none
  ∧ armCommaBlock c10Toks = none :=
  ⟨rfl, rfl⟩
